import Mathlib

/-!
# Verification of the detection-aggregation core of `app_new17.py`

Shallow embedding of the billing-system backend (`src/backend/app_new17.py`):
the temporal-deduplication counting algorithm (`emit_detections`), the session
start/stop handlers, the bounded frame queue, the `Detection` box construction,
and the price lookup used by the broadcast loop.

Modelling conventions:
* Python floats (timestamps, confidences, coordinates) are modelled as `ℚ`.
* `detected_ingredients` (a Python dict, insertion ordered) is modelled as an
  association list `Counts`; a fresh key is appended at the end, an update
  rewrites the entry in place, matching CPython dict semantics.
* Detection categories reach indexing only through `int(det.category)`, so a
  category is carried as the already-truncated integer `ℤ`.
* Python list indexing `labels[i]` (with its negative-index wrap-around and
  its `IndexError` on out-of-range) is modelled by `pyIndex`, returning
  `none` exactly when CPython would raise `IndexError`.
* An uncaught exception inside the aggregation loop is modelled by the `Bool`
  flag of `processDetections`: `false` means the tick aborted at that point
  (the remaining detections are not processed and no message is emitted).
-/

set_option autoImplicit false

namespace BillingSystem

/-- One aggregated entry of `detected_ingredients`:
`{"quantity": ..., "last_update": ...}` (`app_new17.py` lines 258-261). -/
structure IngredientInfo where
  quantity : ℕ
  last_update : ℚ
deriving Repr, DecidableEq

/-- The `detected_ingredients` dict: label ↦ quantity/last_update,
insertion ordered like a CPython dict. -/
abbrev Counts := List (String × IngredientInfo)

/-- One `Detection` object (`app_new17.py` lines 30-42), with the category
already truncated by `int(...)` as the code does at every use site. -/
structure Detection where
  category : ℤ
  box : List ℤ
  conf : ℚ
deriving Repr, DecidableEq

/-- First-match lookup in the `detected_ingredients` dict
(`label in detected_ingredients` / `detected_ingredients[label]`). -/
def lookupIng : Counts → String → Option IngredientInfo
  | [], _ => none
  | (k, v) :: rest, l => if k = l then some v else lookupIng rest l

/-- In-place overwrite of the entry for a key already present
(`detected_ingredients[label]["quantity"] += 1` etc. mutates in place). -/
def updateIng : Counts → String → IngredientInfo → Counts
  | [], _, _ => []
  | (k, v) :: rest, l, e => if k = l then (k, e) :: rest else (k, v) :: updateIng rest l e

/-- Quantity stored for a label, `0` when the label is absent. -/
def lookupQty (c : Counts) (l : String) : ℕ :=
  match lookupIng c l with
  | none => 0
  | some d => d.quantity

/-- `weight_update_threshold = 2.0  # seconds` (`app_new17.py` line 246). -/
def weight_update_threshold : ℚ := 2

/-- The per-detection body of the aggregation loop (`app_new17.py`
lines 257-267): first observation inserts `{quantity: 1, last_update: now}`;
a later observation increments and restamps only when
`now - last_update >= weight_update_threshold`, else it is a no-op. -/
def recordObservation (c : Counts) (label : String) (now : ℚ) : Counts :=
  match lookupIng c label with
  | none => c ++ [(label, ⟨1, now⟩)]
  | some d =>
    if weight_update_threshold ≤ now - d.last_update then
      updateIng c label ⟨d.quantity + 1, now⟩
    else
      c

/-- CPython list indexing `xs[i]`: direct for `0 ≤ i < len`, wrap-around for
`-len ≤ i < 0`, and `none` (an `IndexError`) otherwise. -/
def pyIndex (xs : List String) (i : ℤ) : Option String :=
  if h : 0 ≤ i ∧ i < (xs.length : ℤ) then
    some (xs.get ⟨i.toNat, by omega⟩)
  else if h2 : -(xs.length : ℤ) ≤ i ∧ i < 0 then
    some (xs.get ⟨(i + xs.length).toNat, by omega⟩)
  else
    none

/-- The `for det in current_detections` loop of an active tick
(`app_new17.py` lines 255-267).  Returns the updated dict and `true`, or — when
`get_labels()[int(det.category)]` raises `IndexError` — the dict as mutated so
far and `false` (the loop aborts at that detection). -/
def processDetections (labels : List String) (now : ℚ) : Counts → List Detection → Counts × Bool
  | c, [] => (c, true)
  | c, det :: rest =>
    match pyIndex labels det.category with
    | none => (c, false)
    | some label => processDetections labels now (recordObservation c label now) rest

/-- A `products.json` entry; only the `"price"` key is read, and it may be
missing (`product_info.get("price", 0)`). -/
structure ProductInfo where
  price : Option ℚ
deriving Repr, DecidableEq

/-- One `{name, quantity, price}` element of the emitted `products` list. -/
structure ProductEntry where
  name : String
  quantity : ℕ
  price : ℚ
deriving Repr, DecidableEq

/-- `PRODUCTS.get(label, {}).get("price", 0)` (`app_new17.py` lines 272-273):
a missing catalog entry or a present entry without a price yields `0`. -/
def priceOf (prods : String → Option ProductInfo) (l : String) : ℚ :=
  match prods l with
  | none => 0
  | some pi => pi.price.getD 0

/-- The `data_list` built each tick (`app_new17.py` lines 270-278 and
282-290): one entry per label of `detected_ingredients`, in dict order. -/
def buildData (prods : String → Option ProductInfo) (c : Counts) : List ProductEntry :=
  c.map (fun p => ⟨p.1, p.2.quantity, priceOf prods p.1⟩)

/-- `detection_active` together with `detected_ingredients`. -/
structure SessionState where
  active : Bool
  counts : Counts
deriving Repr, DecidableEq

/-- Initial globals: `detection_active = False`, `detected_ingredients = {}`
(`app_new17.py` lines 21-23). -/
def initState : SessionState := ⟨false, []⟩

/-- `handle_start_detection` (`app_new17.py` lines 224-229):
`detection_active = True; detected_ingredients = {}`. -/
def startState (_st : SessionState) : SessionState := ⟨true, []⟩

/-- `handle_stop_detection` (`app_new17.py` lines 232-236):
`detection_active = False`, counts untouched. -/
def stopState (st : SessionState) : SessionState := ⟨false, st.counts⟩

/-- The spec's `snapshot()`: the label ↦ quantity view of the counts. -/
def snapshot (st : SessionState) : List (String × ℕ) :=
  st.counts.map (fun p => (p.1, p.2.quantity))

/-- One iteration of the `emit_detections` loop (`app_new17.py`
lines 247-292) on a detections copy taken at time `now`: when active, fold the
detections into the counts and emit the joined list (unless the fold raised);
when inactive, leave the counts alone and emit the joined list. -/
def emitTick (labels : List String) (prods : String → Option ProductInfo)
    (st : SessionState) (dets : List Detection) (now : ℚ) :
    SessionState × Option (List ProductEntry) :=
  if st.active then
    let r := processDetections labels now st.counts dets
    if r.2 then (⟨true, r.1⟩, some (buildData prods r.1))
    else (⟨true, r.1⟩, none)
  else
    (st, some (buildData prods st.counts))

/-- External events driving the session state: the two socket handlers and an
aggregation tick over a detections snapshot taken at a given time. -/
inductive Event where
  | start : Event
  | stop : Event
  | tick : List Detection → ℚ → Event
deriving Repr, DecidableEq

/-- State transition of one event. -/
def stepEv (labels : List String) (prods : String → Option ProductInfo)
    (st : SessionState) : Event → SessionState
  | .start => startState st
  | .stop => stopState st
  | .tick dets now => (emitTick labels prods st dets now).1

/-- Run a list of events from a state. -/
def runEvents (labels : List String) (prods : String → Option ProductInfo)
    (st : SessionState) (evs : List Event) : SessionState :=
  evs.foldl (stepEv labels prods) st

/-- The labels a single active tick actually records, in loop order, cut off
at the first detection whose category indexing raises (mirrors the abort point
of `processDetections`). -/
def tickLabels (labels : List String) : List Detection → List String
  | [] => []
  | det :: rest =>
    match pyIndex labels det.category with
    | none => []
    | some l => l :: tickLabels labels rest

/-- Specification-side tracker for the counts-domain invariant: the pair
(active flag, labels observed since the current session started), updated per
event exactly as the handlers and the aggregation loop act. -/
def obsStep (labels : List String) (p : Bool × List String) : Event → Bool × List String
  | .start => (true, [])
  | .stop => (false, p.2)
  | .tick dets _ => if p.1 then (true, p.2 ++ tickLabels labels dets) else p

/-- Labels observed since the last session start, over a whole event trace
from process startup. -/
def obsTrace (labels : List String) (evs : List Event) : Bool × List String :=
  evs.foldl (obsStep labels) (false, [])

/-! ## Frame buffer (`frame_queue = Queue(maxsize=10)`, lines 17 and 87-88) -/

/-- `Queue(maxsize=10)` (`app_new17.py` line 17). -/
def frame_queue_maxsize : ℕ := 10

/-- The producer's push (`app_new17.py` lines 87-88):
`if not frame_queue.full(): frame_queue.put(...)` — a frame is appended only
when the queue holds fewer than `maxsize` items, else the new frame is
discarded; the call never blocks. -/
def tryPush {α : Type} (items : List α) (f : α) : List α :=
  if items.length < frame_queue_maxsize then items ++ [f] else items

/-- The consumer's poll (`generate_frames`, lines 106-114):
`if not frame_queue.empty(): frame_queue.get()` — FIFO pop, `none` when empty. -/
def popFrame {α : Type} (items : List α) : Option (α × List α) :=
  match items with
  | [] => none
  | f :: rest => some (f, rest)

/-! ## Detection box construction (`Detection.__init__`, lines 30-42) -/

/-- `640 if i % 2 == 0 else 480` (`app_new17.py` lines 38 and 42). -/
def frameBound (i : ℕ) : ℚ := if i % 2 = 0 then 640 else 480

/-- Python `int(...)` on a float/rational: truncation toward zero. -/
def pytrunc (q : ℚ) : ℤ := if 0 ≤ q then ⌊q⌋ else ⌈q⌉

/-- The primary path (`app_new17.py` line 38): each converted coordinate is
clamped by `int(max(0, min(val, 640 if i % 2 == 0 else 480)))`. -/
def clampBox : ℕ → List ℚ → List ℤ
  | _, [] => []
  | i, v :: rest => pytrunc (max 0 (min v (frameBound i))) :: clampBox (i + 1) rest

/-- The fallback path (`app_new17.py` line 42): each raw coordinate is scaled
by `int(val * (640 if i % 2 == 0 else 480))` with no clamping. -/
def scaleBox : ℕ → List ℚ → List ℤ
  | _, [] => []
  | i, v :: rest => pytrunc (v * frameBound i) :: scaleBox (i + 1) rest

/-- `Detection.__init__`'s box (`app_new17.py` lines 35-42): the converter
`imx500.convert_inference_coords` is external, so the primary path takes its
result as `some converted`; `none` is the conversion raising, which selects
the fallback scaling of the raw coords. -/
def mkDetectionBox (conv : Option (List ℚ)) (coords : List ℚ)  : List ℤ :=
  match conv with
  | some cs => clampBox 0 cs
  | none => scaleBox 0 coords

/-- Decidable in-bounds check for a box built starting at coordinate index
`i`: every value is a non-negative integer, at most `640` at even indices
(x-like) and at most `480` at odd indices (y-like). -/
def boxInBoundsB : ℕ → List ℤ → Bool
  | _, [] => true
  | i, v :: rest =>
    (decide (0 ≤ v) && decide (v ≤ (if i % 2 = 0 then (640 : ℤ) else 480)))
      && boxInBoundsB (i + 1) rest

/-! ## Basic lemmas about the dict model -/

theorem lookupIng_append (c : Counts) (k l : String) (e : IngredientInfo) :
    lookupIng (c ++ [(k, e)]) l =
      match lookupIng c l with
      | some v => some v
      | none => if k = l then some e else none := by
  induction c with
  | nil => rfl
  | cons p rest ih =>
    obtain ⟨k', v'⟩ := p
    by_cases hkl : k' = l <;> simp [lookupIng, hkl, ih]

theorem lookupIng_update (c : Counts) (k l : String) (e : IngredientInfo) :
    lookupIng (updateIng c k e) l =
      if k = l then
        (match lookupIng c k with | some _ => some e | none => none)
      else lookupIng c l := by
  induction c with
  | nil =>
    simp only [lookupIng, updateIng]
    split <;> rfl
  | cons p rest ih =>
    obtain ⟨k', v'⟩ := p
    by_cases hk : k' = k
    · subst hk
      by_cases hl : k' = l
      · subst hl
        simp [lookupIng, updateIng]
      · simp [lookupIng, updateIng, hl]
    · by_cases hl : k' = l
      · subst hl
        have hkl : ¬ k = k' := fun h => hk h.symm
        simp [lookupIng, updateIng, hk, hkl]
      · simp [lookupIng, updateIng, hk, hl, ih]

theorem lookupIng_mem {c : Counts} {l : String} {d : IngredientInfo}
    (h : lookupIng c l = some d) : (l, d) ∈ c := by
  induction c with
  | nil => simp [lookupIng] at h
  | cons p rest ih =>
    obtain ⟨k', v'⟩ := p
    by_cases hkl : k' = l
    · subst hkl
      simp [lookupIng] at h
      simp [h]
    · simp [lookupIng, hkl] at h
      exact List.mem_cons_of_mem _ (ih h)

theorem mem_updateIng {c : Counts} {k : String} {e : IngredientInfo}
    {p : String × IngredientInfo} (h : p ∈ updateIng c k e) :
    p ∈ c ∨ p.2 = e := by
  induction c with
  | nil => simp [updateIng] at h
  | cons q rest ih =>
    obtain ⟨k', v'⟩ := q
    by_cases hk : k' = k
    · subst hk
      simp [updateIng] at h
      rcases h with h | h
      · exact Or.inr (by simp [h])
      · exact Or.inl (List.mem_cons_of_mem _ h)
    · simp [updateIng, hk] at h
      rcases h with h | h
      · exact Or.inl (by simp [h])
      · rcases ih h with h' | h'
        · exact Or.inl (List.mem_cons_of_mem _ h')
        · exact Or.inr h'

theorem recordObservation_lookup_other {c : Counts} {l m : String} (now : ℚ)
    (hne : m ≠ l) :
    lookupIng (recordObservation c l now) m = lookupIng c m := by
  have hlm : ¬ l = m := fun hh => hne hh.symm
  cases h : lookupIng c l with
  | none =>
    simp only [recordObservation, h]
    rw [lookupIng_append]
    cases hm : lookupIng c m <;> simp [hm, hlm]
  | some d =>
    simp only [recordObservation, h]
    split
    · rw [lookupIng_update, if_neg hlm]
    · rfl

/-! ## C1: temporal deduplication -/

/-- C1. Temporal deduplication: the first observation of a label inserts
`{quantity: 1, last_update: now}`; a later observation with
`now - last_update ≥ weight_update_threshold` increments the quantity by
exactly 1 and restamps `last_update := now`; a later observation below the
threshold leaves the whole counts dict (hence both the quantity and the
timer) unchanged. -/
theorem dedup_rule (c : Counts) (l : String) (now : ℚ) :
    (lookupIng c l = none →
      lookupIng (recordObservation c l now) l = some ⟨1, now⟩)
    ∧ (∀ d : IngredientInfo, lookupIng c l = some d →
        weight_update_threshold ≤ now - d.last_update →
        lookupIng (recordObservation c l now) l = some ⟨d.quantity + 1, now⟩)
    ∧ (∀ d : IngredientInfo, lookupIng c l = some d →
        now - d.last_update < weight_update_threshold →
        recordObservation c l now = c) := by
  refine ⟨fun h => ?_, fun d h ht => ?_, fun d h ht => ?_⟩
  · simp only [recordObservation, h]
    rw [lookupIng_append]
    simp [h]
  · simp only [recordObservation, h, if_pos ht]
    rw [lookupIng_update]
    simp [h]
  · simp only [recordObservation, h, if_neg (not_le.mpr ht)]

/-- Witness for C1 at concrete inputs: first observation of "apple" at t = 0,
an above-threshold re-observation at t = 5/2, and a below-threshold
re-observation at t = 1. -/
theorem dedup_rule_witness :
    lookupIng (recordObservation [] "apple" 0) "apple" = some ⟨1, 0⟩
    ∧ lookupIng (recordObservation [("apple", ⟨1, 0⟩)] "apple" (5/2)) "apple"
        = some ⟨2, 5/2⟩
    ∧ recordObservation [("apple", ⟨1, 0⟩)] "apple" 1 = [("apple", ⟨1, 0⟩)] :=
  ⟨(dedup_rule [] "apple" 0).1 rfl,
    (dedup_rule [("apple", ⟨1, 0⟩)] "apple" (5/2)).2.1 ⟨1, 0⟩ rfl (by
      norm_num [weight_update_threshold]),
    (dedup_rule [("apple", ⟨1, 0⟩)] "apple" 1).2.2 ⟨1, 0⟩ rfl (by
      norm_num [weight_update_threshold])⟩

/-! ## C2: session reset on start -/

/-- C2. Session reset on start: from any prior state, `handle_start_detection`
activates the session and unconditionally empties the counts, so a snapshot
taken immediately after start is empty. -/
theorem session_reset_on_start (st : SessionState) :
    (startState st).active = true
    ∧ (startState st).counts = []
    ∧ snapshot (startState st) = [] :=
  ⟨rfl, rfl, rfl⟩

/-! ## C3: freeze on stop -/

theorem emitTick_inactive_state (labels : List String)
    (prods : String → Option ProductInfo) (st : SessionState)
    (dets : List Detection) (now : ℚ) (h : st.active = false) :
    (emitTick labels prods st dets now).1 = st := by
  simp [emitTick, h]

theorem runEvents_ticks_inactive (labels : List String)
    (prods : String → Option ProductInfo) (st : SessionState)
    (h : st.active = false) :
    ∀ ps : List (List Detection × ℚ),
      runEvents labels prods st (ps.map fun p => Event.tick p.1 p.2) = st := by
  intro ps
  induction ps with
  | nil => rfl
  | cons p rest ih =>
    have hstep : (emitTick labels prods st p.1 p.2).1 = st :=
      emitTick_inactive_state labels prods st p.1 p.2 h
    simpa [runEvents, List.foldl_cons, stepEv, hstep] using ih

/-- C3. Freeze on stop: `handle_stop_detection` deactivates the session and
leaves the counts untouched, and from the stopped state any sequence of
aggregation ticks — over arbitrary detection snapshots at arbitrary times —
leaves the state (hence the counts and the snapshot) unchanged. -/
theorem freeze_on_stop (labels : List String)
    (prods : String → Option ProductInfo) (st : SessionState)
    (ps : List (List Detection × ℚ)) :
    (stopState st).active = false
    ∧ (stopState st).counts = st.counts
    ∧ runEvents labels prods (stopState st) (ps.map fun p => Event.tick p.1 p.2)
        = stopState st
    ∧ snapshot (runEvents labels prods (stopState st)
        (ps.map fun p => Event.tick p.1 p.2)) = snapshot (stopState st) := by
  have hrun := runEvents_ticks_inactive labels prods (stopState st) rfl ps
  exact ⟨rfl, rfl, hrun, by rw [hrun]⟩

/-! ## C5: bounded buffer, drop-newest -/

theorem foldl_tryPush_of_full {α : Type} (xs : List α) :
    ∀ q : List α, frame_queue_maxsize ≤ q.length →
      xs.foldl tryPush q = q := by
  induction xs with
  | nil => intro q _; rfl
  | cons x rest ih =>
    intro q hq
    have hfull : tryPush q x = q := by
      simp [tryPush, Nat.not_lt.mpr hq]
    simpa [List.foldl_cons, hfull] using ih q hq

theorem foldl_tryPush_take {α : Type} (xs : List α) :
    ∀ q : List α, q.length ≤ frame_queue_maxsize →
      xs.foldl tryPush q = q ++ xs.take (frame_queue_maxsize - q.length) := by
  induction xs with
  | nil => intro q _; simp
  | cons x rest ih =>
    intro q hq
    by_cases hlt : q.length < frame_queue_maxsize
    · have hpush : tryPush q x = q ++ [x] := by simp [tryPush, hlt]
      have hlen : (q ++ [x]).length ≤ frame_queue_maxsize := by
        simp
        omega
      have := ih (q ++ [x]) hlen
      rw [List.foldl_cons, hpush, this]
      have harith : frame_queue_maxsize - q.length
          = (frame_queue_maxsize - (q ++ [x]).length) + 1 := by
        simp
        omega
      rw [harith, List.take_succ_cons, List.append_assoc]
      rfl
    · have heq : q.length = frame_queue_maxsize := by omega
      have hfull : tryPush q x = q := by
        simp [tryPush, hlt]
      rw [List.foldl_cons, hfull, foldl_tryPush_of_full rest q (le_of_eq heq.symm)]
      simp [heq]

/-- C5. Bounded buffer, drop-newest: the frame queue's capacity is the fixed
constant 10; a push either appends the frame or (exactly when the queue is at
capacity) discards it unchanged — never evicting an older queued frame, never
blocking (the model is a total function); and pushing any sequence of frames
into the empty buffer retains exactly the first `maxsize` of them, in FIFO
order (so the 11th and later frames are the ones dropped). -/
theorem bounded_buffer_drop_newest {α : Type} (q : List α) (f : α) (xs : List α) :
    frame_queue_maxsize = 10
    ∧ (tryPush q f = q ++ [f] ∨ tryPush q f = q)
    ∧ (frame_queue_maxsize ≤ q.length → tryPush q f = q)
    ∧ xs.foldl tryPush [] = xs.take frame_queue_maxsize := by
  refine ⟨rfl, ?_, fun hq => by simp [tryPush, Nat.not_lt.mpr hq], ?_⟩
  · by_cases hlt : q.length < frame_queue_maxsize
    · exact Or.inl (by simp [tryPush, hlt])
    · exact Or.inr (by simp [tryPush, hlt])
  · simpa using foldl_tryPush_take xs [] (by simp [frame_queue_maxsize])

/-- Witness for C5: a full buffer of ten frames drops the 99th frame, and
pushing the eleven frames 0..10 into the empty buffer keeps exactly frames
0..9. -/
theorem bounded_buffer_drop_newest_witness :
    tryPush [0, 1, 2, 3, 4, 5, 6, 7, 8, 9] (99 : ℕ) = [0, 1, 2, 3, 4, 5, 6, 7, 8, 9]
    ∧ List.foldl tryPush [] [0, 1, 2, 3, 4, 5, 6, 7, 8, 9, 10]
        = [(0 : ℕ), 1, 2, 3, 4, 5, 6, 7, 8, 9] :=
  ⟨(bounded_buffer_drop_newest [0, 1, 2, 3, 4, 5, 6, 7, 8, 9] 99 []).2.2.1
      (by decide),
    ((bounded_buffer_drop_newest ([] : List ℕ) 0
        [0, 1, 2, 3, 4, 5, 6, 7, 8, 9, 10]).2.2.2).trans (by decide)⟩

/-! ## C7: missing price default -/

/-- C7. Missing price default: a label absent from `PRODUCTS`, or present
with no `"price"` key, resolves to price 0; the lookup is total (it cannot
raise), every label of the counts still contributes its `{name, quantity,
price}` entry to the built list, and the list has one entry per label (no
entry and no message is ever suppressed). -/
theorem missing_price_default (prods : String → Option ProductInfo)
    (c : Counts) (l : String) (e : IngredientInfo) :
    (prods l = none → priceOf prods l = 0)
    ∧ (prods l = some ⟨none⟩ → priceOf prods l = 0)
    ∧ ((l, e) ∈ c →
        (⟨l, e.quantity, priceOf prods l⟩ : ProductEntry) ∈ buildData prods c)
    ∧ (buildData prods c).length = c.length := by
  refine ⟨fun h => by simp [priceOf, h], fun h => by simp [priceOf, h],
    fun h => ?_, by simp [buildData]⟩
  have := List.mem_map_of_mem
    (fun p : String × IngredientInfo =>
      (⟨p.1, p.2.quantity, priceOf prods p.1⟩ : ProductEntry)) h
  simpa [buildData] using this

/-- Witness for C7: with an empty catalog, and with a catalog entry lacking a
price, "apple" gets price 0 and still appears in the built list. -/
theorem missing_price_default_witness :
    priceOf (fun _ => none) "apple" = 0
    ∧ priceOf (fun _ => some ⟨none⟩) "apple" = 0
    ∧ (⟨"apple", 2, priceOf (fun _ => none) "apple"⟩ : ProductEntry)
        ∈ buildData (fun _ => none) [("apple", ⟨2, 0⟩)] :=
  ⟨(missing_price_default (fun _ => none) [] "apple" ⟨2, 0⟩).1 rfl,
    (missing_price_default (fun _ => some ⟨none⟩) [] "apple" ⟨2, 0⟩).2.1 rfl,
    (missing_price_default (fun _ => none) [("apple", ⟨2, 0⟩)] "apple"
        ⟨2, 0⟩).2.2.1 (by simp)⟩

/-! ## C4: out-of-range categories are NOT dropped silently -/

/-- C4 counterexample: with label catalog `["a"]`, a detection with category 1
(out of range) makes the active-tick loop abort with an `IndexError` (the
completion flag is `false`) and the tick emits no message — the loop raises
instead of dropping the detection; and with catalog `["a", "b"]`, a detection
with category `-1` (out of range per the claim) is not dropped either: Python
index wrap-around counts it under the last label `"b"`, modifying the counts. -/
theorem out_of_range_counterexample :
    (processDetections ["a"] 0 []
        [({ category := 1, box := [], conf := 1 } : Detection)]).2 = false
    ∧ (emitTick ["a"] (fun _ => none) ⟨true, []⟩
        [({ category := 1, box := [], conf := 1 } : Detection)] 0).2 = none
    ∧ (processDetections ["a", "b"] 0 []
        [({ category := -1, box := [], conf := 1 } : Detection)]).1
        = [("b", ⟨1, 0⟩)] := by
  refine ⟨?_, ?_, ?_⟩ <;> decide

theorem processDetections_ok (labels : List String) (now : ℚ) :
    ∀ (dets : List Detection) (c : Counts),
      (∀ d ∈ dets, (pyIndex labels d.category).isSome) →
      (processDetections labels now c dets).2 = true := by
  intro dets
  induction dets with
  | nil => intro c _; rfl
  | cons det rest ih =>
    intro c h
    have hdet := h det (by simp)
    cases hp : pyIndex labels det.category with
    | none => rw [hp] at hdet; simp at hdet
    | some label =>
      simp only [processDetections, hp]
      exact ih _ (fun d hd => h d (List.mem_cons_of_mem _ hd))

/-- C4 amended: an out-of-range category is not dropped silently. If every
detection before `d` resolves but `d`'s category does not index the catalog
(after Python's negative wrap-around), the active tick processes the earlier
detections, then aborts at `d` with an `IndexError`: the detections after `d`
are never processed, and the tick emits no message. (A category in
`[-size, -1]`, which the claim also calls out of range, instead wraps around
and is counted — see the counterexample.) -/
theorem out_of_range_aborts_tick (labels : List String)
    (prods : String → Option ProductInfo) (c : Counts)
    (dets1 dets2 : List Detection) (d : Detection) (now : ℚ)
    (h1 : ∀ d' ∈ dets1, (pyIndex labels d'.category).isSome)
    (h2 : pyIndex labels d.category = none) :
    processDetections labels now c (dets1 ++ d :: dets2)
      = ((processDetections labels now c dets1).1, false)
    ∧ (emitTick labels prods ⟨true, c⟩ (dets1 ++ d :: dets2) now).2 = none := by
  have key : ∀ (ds : List Detection) (c0 : Counts),
      (∀ d' ∈ ds, (pyIndex labels d'.category).isSome) →
      processDetections labels now c0 (ds ++ d :: dets2)
        = ((processDetections labels now c0 ds).1, false) := by
    intro ds
    induction ds with
    | nil =>
      intro c0 _
      simp only [List.nil_append, processDetections, h2]
    | cons det rest ih =>
      intro c0 h
      have hdet := h det (by simp)
      cases hp : pyIndex labels det.category with
      | none => rw [hp] at hdet; simp at hdet
      | some label =>
        simp only [List.cons_append, processDetections, hp]
        exact ih _ (fun d' hd => h d' (List.mem_cons_of_mem _ hd))
  have hmain := key dets1 c h1
  refine ⟨hmain, ?_⟩
  simp [emitTick, hmain]

/-- Witness for C4's amended theorem at a concrete input: catalog `["a"]`,
one valid detection (category 0) followed by an invalid one (category 1). -/
theorem out_of_range_aborts_tick_witness :
    processDetections ["a"] 0 []
        ([({ category := 0, box := [], conf := 1 } : Detection)]
          ++ ({ category := 1, box := [], conf := 1 } : Detection) :: [])
      = ((processDetections ["a"] 0 []
          [({ category := 0, box := [], conf := 1 } : Detection)]).1, false)
    ∧ (emitTick ["a"] (fun _ => none) ⟨true, []⟩
        ([({ category := 0, box := [], conf := 1 } : Detection)]
          ++ ({ category := 1, box := [], conf := 1 } : Detection) :: []) 0).2
      = none :=
  out_of_range_aborts_tick ["a"] (fun _ => none) []
    [({ category := 0, box := [], conf := 1 } : Detection)] []
    ({ category := 1, box := [], conf := 1 } : Detection) 0
    (by decide) (by decide)

/-! ## C8: broadcast every tick -/

/-- C8 counterexample: a broadcast tick exists that emits no message — an
active tick whose snapshot holds a detection with category 2 against the
one-label catalog `["a"]` aborts with an `IndexError` before `socketio.emit`
is reached, so "exactly one message per tick" fails as stated. -/
theorem unconditional_broadcast_counterexample :
    (emitTick ["a"] (fun _ => none) ⟨true, []⟩
        [({ category := 2, box := [], conf := 1 } : Detection)] 0).2 = none := by
  decide

/-- C8 amended: on every broadcast tick whose detections all resolve in the
label catalog (in particular on every tick while inactive, which consults no
detection), exactly one message is emitted, regardless of the active flag and
of whether the counts changed; the message holds one `{name, quantity, price}`
entry per label of the (post-aggregation) counts with the stored quantity and
the catalog price; and the inactive branch builds the same message from the
counts as the active branch does from the same counts. -/
theorem unconditional_broadcast (labels : List String)
    (prods : String → Option ProductInfo) (st : SessionState)
    (dets : List Detection) (now : ℚ) (c : Counts)
    (h : ∀ d ∈ dets, (pyIndex labels d.category).isSome) :
    ((emitTick labels prods st dets now).2
        = some (buildData prods (emitTick labels prods st dets now).1.counts)
      ∧ (buildData prods (emitTick labels prods st dets now).1.counts).length
        = (emitTick labels prods st dets now).1.counts.length
      ∧ ∀ p ∈ (emitTick labels prods st dets now).1.counts,
          (⟨p.1, p.2.quantity, priceOf prods p.1⟩ : ProductEntry)
            ∈ buildData prods (emitTick labels prods st dets now).1.counts)
    ∧ (emitTick labels prods ⟨false, c⟩ dets now).2
        = (emitTick labels prods ⟨true, c⟩ [] now).2 := by
  have hmem : ∀ (c' : Counts) (p : String × IngredientInfo), p ∈ c' →
      (⟨p.1, p.2.quantity, priceOf prods p.1⟩ : ProductEntry)
        ∈ buildData prods c' := by
    intro c' p hp
    have := List.mem_map_of_mem
      (fun q : String × IngredientInfo =>
        (⟨q.1, q.2.quantity, priceOf prods q.1⟩ : ProductEntry)) hp
    simpa [buildData] using this
  constructor
  · cases hact : st.active with
    | false =>
      refine ⟨?_, by simp [buildData], fun p hp => hmem _ p hp⟩
      simp [emitTick, hact]
    | true =>
      have hok : (processDetections labels now st.counts dets).2 = true :=
        processDetections_ok labels now dets st.counts h
      refine ⟨?_, by simp [buildData], fun p hp => hmem _ p hp⟩
      simp [emitTick, hact, hok]
  · simp [emitTick, processDetections]

/-- Witness for C8's amended theorem: catalog `["a"]`, one valid detection,
active state with empty counts. -/
theorem unconditional_broadcast_witness :
    ((emitTick ["a"] (fun _ => none) ⟨true, []⟩
        [({ category := 0, box := [], conf := 1 } : Detection)] 0).2
      = some (buildData (fun _ => none)
          (emitTick ["a"] (fun _ => none) ⟨true, []⟩
            [({ category := 0, box := [], conf := 1 } : Detection)] 0).1.counts)
      ∧ (buildData (fun _ => none)
          (emitTick ["a"] (fun _ => none) ⟨true, []⟩
            [({ category := 0, box := [], conf := 1 } : Detection)] 0).1.counts).length
        = (emitTick ["a"] (fun _ => none) ⟨true, []⟩
            [({ category := 0, box := [], conf := 1 } : Detection)] 0).1.counts.length
      ∧ ∀ p ∈ (emitTick ["a"] (fun _ => none) ⟨true, []⟩
            [({ category := 0, box := [], conf := 1 } : Detection)] 0).1.counts,
          (⟨p.1, p.2.quantity, priceOf (fun _ => none) p.1⟩ : ProductEntry)
            ∈ buildData (fun _ => none)
                (emitTick ["a"] (fun _ => none) ⟨true, []⟩
                  [({ category := 0, box := [], conf := 1 } : Detection)] 0).1.counts)
    ∧ (emitTick ["a"] (fun _ => none) ⟨false, [("a", ⟨3, 0⟩)]⟩
        [({ category := 0, box := [], conf := 1 } : Detection)] 0).2
      = (emitTick ["a"] (fun _ => none) ⟨true, [("a", ⟨3, 0⟩)]⟩ [] 0).2 :=
  unconditional_broadcast ["a"] (fun _ => none) ⟨true, []⟩
    [({ category := 0, box := [], conf := 1 } : Detection)] 0
    [("a", ⟨3, 0⟩)] (by decide)

/-! ## C6: box clamping -/

/-- C6 counterexample: when the coordinate conversion fails and the fallback
scaling path runs, the raw coordinate 2 (outside the normalized range the
fallback assumes) produces the box value `1280`, outside `[0, 640]` — the
fallback path does not clamp. -/
theorem box_clamping_counterexample :
    mkDetectionBox none [2, 0, 0, 0] = [1280, 0, 0, 0]
    ∧ boxInBoundsB 0 (mkDetectionBox none [2, 0, 0, 0]) = false := by
  have hval : mkDetectionBox none [2, 0, 0, 0] = [1280, 0, 0, 0] := by
    simp only [mkDetectionBox, scaleBox, pytrunc, frameBound]
    norm_num
  refine ⟨hval, ?_⟩
  rw [hval]
  simp [boxInBoundsB]

theorem pytrunc_bounds {q : ℚ} {B : ℤ} (h0 : 0 ≤ q) (hB : q ≤ (B : ℚ)) :
    0 ≤ pytrunc q ∧ pytrunc q ≤ B := by
  unfold pytrunc
  rw [if_pos h0]
  refine ⟨Int.floor_nonneg.mpr h0, ?_⟩
  have := Int.floor_le_floor hB
  rwa [Int.floor_intCast] at this

theorem frameBound_cast (i : ℕ) :
    (((if i % 2 = 0 then (640 : ℤ) else 480) : ℤ) : ℚ) = frameBound i := by
  unfold frameBound
  split <;> norm_num

theorem frameBound_nonneg (i : ℕ) : (0 : ℚ) ≤ frameBound i := by
  unfold frameBound
  split <;> norm_num

theorem boxInBoundsB_clampBox : ∀ (cs : List ℚ) (i : ℕ),
    boxInBoundsB i (clampBox i cs) = true := by
  intro cs
  induction cs with
  | nil => intro i; rfl
  | cons v rest ih =>
    intro i
    have h0 : 0 ≤ max 0 (min v (frameBound i)) := le_max_left 0 _
    simp only [clampBox, boxInBoundsB, Bool.and_eq_true, decide_eq_true_eq]
    refine ⟨pytrunc_bounds h0 ?_, ih (i + 1)⟩
    rw [frameBound_cast]
    exact max_le (frameBound_nonneg i) (min_le_right _ _)

theorem boxInBoundsB_scaleBox : ∀ (cs : List ℚ) (i : ℕ),
    (∀ v ∈ cs, 0 ≤ v ∧ v ≤ 1) →
    boxInBoundsB i (scaleBox i cs) = true := by
  intro cs
  induction cs with
  | nil => intro i _; rfl
  | cons v rest ih =>
    intro i h
    obtain ⟨hv0, hv1⟩ := h v (by simp)
    have h0 : 0 ≤ v * frameBound i := mul_nonneg hv0 (frameBound_nonneg i)
    simp only [scaleBox, boxInBoundsB, Bool.and_eq_true, decide_eq_true_eq]
    refine ⟨pytrunc_bounds h0 ?_, ih (i + 1) (fun w hw => h w (List.mem_cons_of_mem _ hw))⟩
    rw [frameBound_cast]
    exact mul_le_of_le_one_left (frameBound_nonneg i) hv1

/-- C6 amended: a box built on the primary path (conversion succeeded) always
consists of integers within `[0, 640]` at x-indices and `[0, 480]` at
y-indices, for arbitrary converted coordinates; the fallback path guarantees
this only under the assumption its scaling encodes — every raw coordinate
normalized in `[0, 1]` — and can exceed the bounds otherwise (see the
counterexample). -/
theorem box_clamping (cs coords : List ℚ)
    (hcoords : ∀ v ∈ coords, 0 ≤ v ∧ v ≤ 1) :
    boxInBoundsB 0 (mkDetectionBox (some cs) coords) = true
    ∧ boxInBoundsB 0 (mkDetectionBox none coords) = true :=
  ⟨boxInBoundsB_clampBox cs 0, boxInBoundsB_scaleBox coords 0 hcoords⟩

/-- Witness for C6's amended theorem: arbitrary converted coordinates
(including wild ones) on the primary path, and normalized raw coordinates on
the fallback path. -/
theorem box_clamping_witness :
    boxInBoundsB 0 (mkDetectionBox (some [700, -5, 100, 3000]) [1/2, 1/2, 1/4, 1/4]) = true
    ∧ boxInBoundsB 0 (mkDetectionBox none [1/2, 1/2, 1/4, 1/4]) = true :=
  box_clamping [700, -5, 100, 3000] [1/2, 1/2, 1/4, 1/4] (by
    intro v hv
    simp only [List.mem_cons, List.not_mem_nil, or_false] at hv
    rcases hv with h | h | h | h <;> rw [h] <;> norm_num)

/-! ## C10: per-tick idempotence -/

theorem recordObservation_lookup_none {c : Counts} {l : String} {now : ℚ}
    (h : lookupIng c l = none) :
    lookupIng (recordObservation c l now) l = some ⟨1, now⟩ := by
  simp only [recordObservation, h]
  rw [lookupIng_append]
  simp [h]

theorem recordObservation_lookup_incr {c : Counts} {l : String} {now : ℚ}
    {d : IngredientInfo} (h : lookupIng c l = some d)
    (ht : weight_update_threshold ≤ now - d.last_update) :
    lookupIng (recordObservation c l now) l = some ⟨d.quantity + 1, now⟩ := by
  simp only [recordObservation, h, if_pos ht]
  rw [lookupIng_update]
  simp [h]

theorem recordObservation_noop {c : Counts} {l : String} {now : ℚ}
    {d : IngredientInfo} (h : lookupIng c l = some d)
    (ht : ¬ weight_update_threshold ≤ now - d.last_update) :
    recordObservation c l now = c := by
  simp only [recordObservation, h, if_neg ht]

theorem recordObservation_lookup_after (c : Counts) (l : String) (now : ℚ) :
    (∃ e : IngredientInfo,
        lookupIng (recordObservation c l now) l = some e ∧ e.last_update = now)
    ∨ (recordObservation c l now = c ∧ (lookupIng c l).isSome) := by
  cases h : lookupIng c l with
  | none => exact Or.inl ⟨⟨1, now⟩, recordObservation_lookup_none h, rfl⟩
  | some d =>
    by_cases ht : weight_update_threshold ≤ now - d.last_update
    · exact Or.inl ⟨⟨d.quantity + 1, now⟩, recordObservation_lookup_incr h ht, rfl⟩
    · exact Or.inr ⟨recordObservation_noop h ht, by simp [h]⟩

theorem recordObservation_idem (c : Counts) (l : String) (now : ℚ) :
    recordObservation (recordObservation c l now) l now
      = recordObservation c l now := by
  rcases recordObservation_lookup_after c l now with ⟨e, he, hnow⟩ | ⟨heq, _⟩
  · have hlt : ¬ weight_update_threshold ≤ now - e.last_update := by
      rw [hnow, sub_self]
      norm_num [weight_update_threshold]
    exact recordObservation_noop he hlt
  · rw [heq, heq]

theorem recordObservation_qty_inv (c : Counts) (l m : String) (now : ℚ)
    (q0 : ℕ) (h1 : lookupQty c l ≤ q0 + 1)
    (h2 : lookupQty c l ≤ q0
      ∨ (∃ e, lookupIng c l = some e ∧ e.last_update = now)) :
    lookupQty (recordObservation c m now) l ≤ q0 + 1
    ∧ (lookupQty (recordObservation c m now) l ≤ q0
      ∨ (∃ e, lookupIng (recordObservation c m now) l = some e
          ∧ e.last_update = now)) := by
  by_cases hlm : l = m
  · subst hlm
    cases h : lookupIng c l with
    | none =>
      have hl := @recordObservation_lookup_none c l now h
      refine ⟨?_, Or.inr ⟨⟨1, now⟩, hl, rfl⟩⟩
      simp only [lookupQty, hl]
      omega
    | some d =>
      by_cases ht : weight_update_threshold ≤ now - d.last_update
      · have hdq : d.quantity ≤ q0 := by
          rcases h2 with h2 | ⟨e, he, hnow⟩
          · unfold lookupQty at h2
            rw [h] at h2
            exact h2
          · have hde : d = e := Option.some.inj (h.symm.trans he)
            rw [hde, hnow, sub_self] at ht
            exact absurd ht (by norm_num [weight_update_threshold])
        have hl := recordObservation_lookup_incr h ht
        refine ⟨?_, Or.inr ⟨⟨d.quantity + 1, now⟩, hl, rfl⟩⟩
        simp only [lookupQty, hl]
        omega
      · rw [recordObservation_noop h ht]
        exact ⟨h1, h2⟩
  · have hl := @recordObservation_lookup_other c m l now hlm
    refine ⟨?_, ?_⟩
    · simp only [lookupQty, hl]
      exact h1
    · rcases h2 with h2 | ⟨e, he, hnow⟩
      · left
        simp only [lookupQty, hl]
        exact h2
      · exact Or.inr ⟨e, by rw [hl]; exact he, hnow⟩

theorem processDetections_qty_inv (labels : List String) (now : ℚ) (l : String) :
    ∀ (dets : List Detection) (c : Counts) (q0 : ℕ),
      lookupQty c l ≤ q0 + 1 →
      (lookupQty c l ≤ q0
        ∨ (∃ e, lookupIng c l = some e ∧ e.last_update = now)) →
      lookupQty (processDetections labels now c dets).1 l ≤ q0 + 1 := by
  intro dets
  induction dets with
  | nil => intro c q0 h1 _; exact h1
  | cons det rest ih =>
    intro c q0 h1 h2
    cases hp : pyIndex labels det.category with
    | none => simp only [processDetections, hp]; exact h1
    | some label =>
      simp only [processDetections, hp]
      obtain ⟨h1', h2'⟩ := recordObservation_qty_inv c l label now q0 h1 h2
      exact ih _ q0 h1' h2'

/-- C10. Per-tick idempotence: re-recording the same label at the same tick
timestamp is a no-op (the first occurrence stamps `last_update := now`, so
the second sees a zero elapsed time, below the 2-second threshold), and
therefore one aggregation tick increases each label's quantity by at most 1,
however many detections of that label the snapshot copy contains. -/
theorem per_tick_idempotence (labels : List String) (c : Counts)
    (dets : List Detection) (l label : String) (now : ℚ) :
    recordObservation (recordObservation c label now) label now
      = recordObservation c label now
    ∧ lookupQty (processDetections labels now c dets).1 l ≤ lookupQty c l + 1 :=
  ⟨recordObservation_idem c label now,
    processDetections_qty_inv labels now l dets c (lookupQty c l)
      (by omega) (Or.inl le_rfl)⟩

/-! ## C9: counts invariant over event traces -/

theorem emitTick_active_counts (labels : List String)
    (prods : String → Option ProductInfo) (st : SessionState)
    (dets : List Detection) (now : ℚ) (h : st.active = true) :
    (emitTick labels prods st dets now).1
      = ⟨true, (processDetections labels now st.counts dets).1⟩ := by
  simp only [emitTick, h, if_true]
  split <;> rfl

theorem recordObservation_qtyGE1 {c : Counts} (l : String) (now : ℚ)
    (h : ∀ p ∈ c, 1 ≤ (p.2 : IngredientInfo).quantity) :
    ∀ p ∈ recordObservation c l now, 1 ≤ (p.2 : IngredientInfo).quantity := by
  intro p hp
  cases hl : lookupIng c l with
  | none =>
    simp only [recordObservation, hl] at hp
    rcases List.mem_append.mp hp with hin | hin
    · exact h p hin
    · simp at hin
      simp [hin]
  | some d =>
    simp only [recordObservation, hl] at hp
    by_cases ht : weight_update_threshold ≤ now - d.last_update
    · rw [if_pos ht] at hp
      rcases mem_updateIng hp with hin | hin
      · exact h p hin
      · rw [hin]
        show 1 ≤ d.quantity + 1
        omega
    · rw [if_neg ht] at hp
      exact h p hp

theorem processDetections_qtyGE1 (labels : List String) (now : ℚ) :
    ∀ (dets : List Detection) (c : Counts),
      (∀ p ∈ c, 1 ≤ (p.2 : IngredientInfo).quantity) →
      ∀ p ∈ (processDetections labels now c dets).1,
        1 ≤ (p.2 : IngredientInfo).quantity := by
  intro dets
  induction dets with
  | nil => intro c h; exact h
  | cons det rest ih =>
    intro c h
    cases hp : pyIndex labels det.category with
    | none => simp only [processDetections, hp]; exact h
    | some label =>
      simp only [processDetections, hp]
      exact ih _ (recordObservation_qtyGE1 label now h)

theorem stepEv_qtyGE1 (labels : List String)
    (prods : String → Option ProductInfo) (st : SessionState) (ev : Event)
    (h : ∀ p ∈ st.counts, 1 ≤ (p.2 : IngredientInfo).quantity) :
    ∀ p ∈ (stepEv labels prods st ev).counts,
      1 ≤ (p.2 : IngredientInfo).quantity := by
  cases ev with
  | start => intro p hp; simp [stepEv, startState] at hp
  | stop => exact h
  | tick dets now =>
    cases hact : st.active with
    | false =>
      rw [show stepEv labels prods st (Event.tick dets now) = st from
        emitTick_inactive_state labels prods st dets now hact]
      exact h
    | true =>
      rw [show stepEv labels prods st (Event.tick dets now)
          = ⟨true, (processDetections labels now st.counts dets).1⟩ from
        emitTick_active_counts labels prods st dets now hact]
      exact processDetections_qtyGE1 labels now dets st.counts h

theorem runEvents_qtyGE1 (labels : List String)
    (prods : String → Option ProductInfo) :
    ∀ (evs : List Event) (st : SessionState),
      (∀ p ∈ st.counts, 1 ≤ (p.2 : IngredientInfo).quantity) →
      ∀ p ∈ (runEvents labels prods st evs).counts,
        1 ≤ (p.2 : IngredientInfo).quantity := by
  intro evs
  induction evs with
  | nil => intro st h; exact h
  | cons ev rest ih =>
    intro st h
    simpa [runEvents, List.foldl_cons] using
      ih (stepEv labels prods st ev) (stepEv_qtyGE1 labels prods st ev h)

theorem recordObservation_qty_mono (c : Counts) (l m : String) (now : ℚ) :
    lookupQty c l ≤ lookupQty (recordObservation c m now) l := by
  by_cases hlm : l = m
  · subst hlm
    cases h : lookupIng c l with
    | none =>
      simp only [lookupQty, h]
      omega
    | some d =>
      by_cases ht : weight_update_threshold ≤ now - d.last_update
      · simp only [lookupQty, h, recordObservation_lookup_incr h ht]
        omega
      · rw [recordObservation_noop h ht]
  · rw [show lookupQty (recordObservation c m now) l = lookupQty c l by
      simp only [lookupQty, @recordObservation_lookup_other c m l now hlm]]

theorem processDetections_qty_mono (labels : List String) (now : ℚ) (l : String) :
    ∀ (dets : List Detection) (c : Counts),
      lookupQty c l ≤ lookupQty (processDetections labels now c dets).1 l := by
  intro dets
  induction dets with
  | nil => intro c; exact le_rfl
  | cons det rest ih =>
    intro c
    cases hp : pyIndex labels det.category with
    | none => simp only [processDetections, hp]; exact le_rfl
    | some label =>
      simp only [processDetections, hp]
      exact (recordObservation_qty_mono c l label now).trans (ih _)

theorem stepEv_qty_mono (labels : List String)
    (prods : String → Option ProductInfo) (st : SessionState) (ev : Event)
    (l : String) (h : ev ≠ Event.start) :
    lookupQty st.counts l ≤ lookupQty (stepEv labels prods st ev).counts l := by
  cases ev with
  | start => exact absurd rfl h
  | stop => exact le_rfl
  | tick dets now =>
    cases hact : st.active with
    | false =>
      rw [show stepEv labels prods st (Event.tick dets now) = st from
        emitTick_inactive_state labels prods st dets now hact]
    | true =>
      rw [show stepEv labels prods st (Event.tick dets now)
          = ⟨true, (processDetections labels now st.counts dets).1⟩ from
        emitTick_active_counts labels prods st dets now hact]
      exact processDetections_qty_mono labels now l dets st.counts

theorem runEvents_qty_mono (labels : List String)
    (prods : String → Option ProductInfo) (l : String) :
    ∀ (evs : List Event) (st : SessionState), Event.start ∉ evs →
      lookupQty st.counts l ≤ lookupQty (runEvents labels prods st evs).counts l := by
  intro evs
  induction evs with
  | nil => intro st _; exact le_rfl
  | cons ev rest ih =>
    intro st hnot
    have hev : ev ≠ Event.start := fun he => hnot (by simp [he])
    have hrest : Event.start ∉ rest := fun hr => hnot (List.mem_cons_of_mem _ hr)
    calc lookupQty st.counts l
        ≤ lookupQty (stepEv labels prods st ev).counts l :=
          stepEv_qty_mono labels prods st ev l hev
      _ ≤ lookupQty (runEvents labels prods (stepEv labels prods st ev) rest).counts l :=
          ih (stepEv labels prods st ev) hrest

theorem recordObservation_keys (c : Counts) (m : String) (now : ℚ) (l : String) :
    (lookupIng (recordObservation c m now) l).isSome
      ↔ ((lookupIng c l).isSome ∨ l = m) := by
  by_cases hlm : l = m
  · subst hlm
    rcases recordObservation_lookup_after c l now with ⟨e, he, _⟩ | ⟨heq, hsome⟩
    · simp [he]
    · rw [heq]
      simp [hsome]
  · rw [@recordObservation_lookup_other c m l now hlm]
    simp [hlm]

theorem processDetections_keys (labels : List String) (now : ℚ) :
    ∀ (dets : List Detection) (c : Counts) (l : String),
      (lookupIng (processDetections labels now c dets).1 l).isSome
        ↔ ((lookupIng c l).isSome ∨ l ∈ tickLabels labels dets) := by
  intro dets
  induction dets with
  | nil => intro c l; simp [processDetections, tickLabels]
  | cons det rest ih =>
    intro c l
    cases hp : pyIndex labels det.category with
    | none => simp [processDetections, tickLabels, hp]
    | some label =>
      simp only [processDetections, tickLabels, hp]
      rw [ih, recordObservation_keys]
      simp only [List.mem_cons]
      tauto

theorem runEvents_obs_sync (labels : List String)
    (prods : String → Option ProductInfo) :
    ∀ (evs : List Event) (st : SessionState) (p : Bool × List String),
      st.active = p.1 →
      (∀ l, (lookupIng st.counts l).isSome ↔ l ∈ p.2) →
      (runEvents labels prods st evs).active = (evs.foldl (obsStep labels) p).1
      ∧ ∀ l, (lookupIng (runEvents labels prods st evs).counts l).isSome
          ↔ l ∈ (evs.foldl (obsStep labels) p).2 := by
  intro evs
  induction evs with
  | nil => intro st p h1 h2; exact ⟨h1, h2⟩
  | cons ev rest ih =>
    intro st p h1 h2
    simp only [runEvents, List.foldl_cons]
    have hstep : (stepEv labels prods st ev).active = (obsStep labels p ev).1
        ∧ ∀ l, (lookupIng (stepEv labels prods st ev).counts l).isSome
            ↔ l ∈ (obsStep labels p ev).2 := by
      cases ev with
      | start =>
        refine ⟨rfl, fun l => ?_⟩
        simp [stepEv, startState, obsStep, lookupIng]
      | stop =>
        refine ⟨by simp [stepEv, stopState, obsStep, h1], fun l => ?_⟩
        simpa [stepEv, stopState, obsStep] using h2 l
      | tick dets now =>
        cases hact : st.active with
        | false =>
          have hp1 : p.1 = false := by rw [← h1, hact]
          rw [show stepEv labels prods st (Event.tick dets now) = st from
            emitTick_inactive_state labels prods st dets now hact]
          refine ⟨?_, fun l => ?_⟩
          · simp [obsStep, hp1, hact]
          · simpa [obsStep, hp1] using h2 l
        | true =>
          have hp1 : p.1 = true := by rw [← h1, hact]
          rw [show stepEv labels prods st (Event.tick dets now)
              = ⟨true, (processDetections labels now st.counts dets).1⟩ from
            emitTick_active_counts labels prods st dets now hact]
          refine ⟨by simp [obsStep, hp1], fun l => ?_⟩
          simp only [obsStep, hp1, if_true]
          rw [processDetections_keys labels now dets st.counts l]
          simp [List.mem_append, h2 l]
    exact ih (stepEv labels prods st ev) (obsStep labels p ev) hstep.1 hstep.2

/-- C9. Counts invariant: in every state reachable from startup, every label
present in the counts has quantity ≥ 1; within a single session (no further
`start_detection` event) no operation ever decreases any label's quantity;
and a label is present in the counts exactly when it has been observed (its
category resolved during an active tick) at least once since the current
session started. -/
theorem counts_invariant (labels : List String)
    (prods : String → Option ProductInfo) (evs evs2 : List Event)
    (l : String) (e : IngredientInfo) :
    ((l, e) ∈ (runEvents labels prods initState evs).counts → 1 ≤ e.quantity)
    ∧ (Event.start ∉ evs2 →
        lookupQty (runEvents labels prods initState evs).counts l
          ≤ lookupQty (runEvents labels prods initState (evs ++ evs2)).counts l)
    ∧ ((lookupIng (runEvents labels prods initState evs).counts l).isSome
        ↔ l ∈ (obsTrace labels evs).2) := by
  refine ⟨fun hmem => ?_, fun hstart => ?_, ?_⟩
  · exact runEvents_qtyGE1 labels prods evs initState (by
      intro p hp
      simp [initState] at hp) (l, e) hmem
  · rw [show runEvents labels prods initState (evs ++ evs2)
        = runEvents labels prods (runEvents labels prods initState evs) evs2 from by
      simp [runEvents, List.foldl_append]]
    exact runEvents_qty_mono labels prods l evs2 _ hstart
  · exact (runEvents_obs_sync labels prods evs initState (false, []) rfl (by
      intro m
      simp [initState, lookupIng])).2 l

/-- Witness for C9: catalog `["a"]`, a session start followed by one tick
observing label "a" at t = 0, then (without restarting) another tick at
t = 5. -/
theorem counts_invariant_witness :
    1 ≤ (⟨1, 0⟩ : IngredientInfo).quantity
    ∧ lookupQty (runEvents ["a"] (fun _ => none) initState
          [Event.start, Event.tick [⟨0, [], 1⟩] 0]).counts "a"
        ≤ lookupQty (runEvents ["a"] (fun _ => none) initState
          ([Event.start, Event.tick [⟨0, [], 1⟩] 0]
            ++ [Event.tick [⟨0, [], 1⟩] 5])).counts "a"
    ∧ ((lookupIng (runEvents ["a"] (fun _ => none) initState
          [Event.start, Event.tick [⟨0, [], 1⟩] 0]).counts "a").isSome
        ↔ "a" ∈ (obsTrace ["a"] [Event.start, Event.tick [⟨0, [], 1⟩] 0]).2) :=
  ⟨(counts_invariant ["a"] (fun _ => none)
      [Event.start, Event.tick [⟨0, [], 1⟩] 0] [Event.tick [⟨0, [], 1⟩] 5]
      "a" ⟨1, 0⟩).1 (by decide),
    (counts_invariant ["a"] (fun _ => none)
      [Event.start, Event.tick [⟨0, [], 1⟩] 0] [Event.tick [⟨0, [], 1⟩] 5]
      "a" ⟨1, 0⟩).2.1 (by decide),
    (counts_invariant ["a"] (fun _ => none)
      [Event.start, Event.tick [⟨0, [], 1⟩] 0] [Event.tick [⟨0, [], 1⟩] 5]
      "a" ⟨1, 0⟩).2.2⟩

end BillingSystem
